import Mathlib

/- Verification of the streaming response orchestrator of deep-research-cli.

   Shallow embedding of the OpenAiClient (streamResponse,
   continueStreamResponse, fetchUrls, calculateUsage), of the processEvent
   driver in app.tsx, and of the SessionLogger in utils/logger.ts.

   Modelling conventions:
   - The upstream model endpoint is an oracle: a sub-turn is the list of
     protocol frames the event loop processed plus an optional transport
     exception that interrupted the stream after them.
   - Network fetches are an oracle (FetchEnv): a per-URL outcome plus the
     order in which the concurrent fetches of a batch complete, since the
     results array is filled by results.push as each promise resolves.
   - A run is a trace of Actions: events yielded to the caller, tool
     executions, and continuation-stream opens, in temporal order.
   - Monetary amounts are rationals; JS number arithmetic on the small price
     table is exact enough that no claim depends on float rounding.
   - File writes and wall-clock-derived fields are elided from the logger
     state; every counter the methods mutate is modelled. -/

namespace DeepResearch

/-- Raw usage counts carried by the upstream completion frame: the fields of
    ResponseUsage that calculateUsage reads. cached_tokens stands for
    input_tokens_details cached_tokens (defaulted to 0 by the code), and
    reasoning_tokens for output_tokens_details reasoning_tokens. -/
structure UsageRaw where
  input_tokens : Nat
  output_tokens : Nat
  total_tokens : Nat
  cached_tokens : Nat
  reasoning_tokens : Nat
  deriving DecidableEq

/-- Normalized usage record returned by calculateUsage (the Usage type). -/
structure Usage where
  prompt_tokens : Nat
  completion_tokens : Nat
  total_tokens : Nat
  cached_tokens : Nat
  thinking_tokens : Nat
  cost : Option ℚ
  deriving DecidableEq

/-- Static per-model price table, USD per token: modelPricing in the source
    (input price, output price). -/
def modelPricing : String → Option (ℚ × ℚ)
  | "gpt-5" => some (125 / 100 / 1000000, 10 / 1000000)
  | "gpt-5-mini" => some (25 / 100 / 1000000, 2 / 1000000)
  | "o3" => some (5 / 10 / 1000000, 15 / 10 / 1000000)
  | "o3-deep-research" => some (1 / 1000000, 3 / 1000000)
  | "o3-pro" => some (2 / 1000000, 6 / 1000000)
  | _ => none

/-- The calculateUsage function: nothing when no raw usage was supplied;
    otherwise the token counts, with cost input_tokens times input price plus
    output_tokens times output price when the model is priced, and cost
    omitted otherwise. -/
def calculateUsage (model : String) (usage : Option UsageRaw) : Option Usage :=
  match usage with
  | none => none
  | some u =>
    let cost : Option ℚ := (modelPricing model).map fun p =>
      (u.input_tokens : ℚ) * p.1 + (u.output_tokens : ℚ) * p.2
    some {
      prompt_tokens := u.input_tokens
      completion_tokens := u.output_tokens
      total_tokens := u.total_tokens
      cached_tokens := u.cached_tokens
      thinking_tokens := u.reasoning_tokens
      cost := cost }

/-- Outcome of one fetch through the r.jina.ai proxy: a success body, a
    non-success HTTP status, or a thrown exception (carrying error.message,
    or the text "Unknown error" for a non-Error throw). The latency is the
    elapsed Date.now() difference the code records. -/
inductive FetchOutcome where
  | ok (content : String) (latency : Nat)
  | httpError (status : Nat) (statusText : String) (latency : Nat)
  | threw (msg : String) (latency : Nat)
  deriving DecidableEq

/-- Network oracle for fetchUrls: the per-URL outcome, and for each batch the
    order (as indices into the batch) in which the concurrent fetches
    complete, which is the order of the results.push calls. -/
structure FetchEnv where
  outcome : String → FetchOutcome
  order : List String → List Nat

/-- Per-URL metrics record: url, latency, sizeBytes, sizeFormatted. -/
structure UrlMetrics where
  url : String
  latency : Nat
  sizeBytes : Nat
  sizeFormatted : String
  deriving DecidableEq

/-- Per-URL fetch result: url, content and metrics. -/
structure UrlFetchResult where
  url : String
  content : String
  metrics : UrlMetrics
  deriving DecidableEq

/-- Size formatting used for a successful body: bytes below 1024 print as B,
    otherwise KB with one decimal (toFixed(1), rounding to nearest tenth). -/
def formatSize (sizeBytes : Nat) : String :=
  if sizeBytes < 1024 then toString sizeBytes ++ "B"
  else
    let tenths := (sizeBytes * 10 + 512) / 1024
    toString (tenths / 10) ++ "." ++ toString (tenths % 10) ++ "KB"

/-- The record pushed onto the results array for one URL, determined by that
    URL's fetch outcome alone. Error strings follow the source templates
    "Error fetching URL: status statusText" and "Error fetching URL: message"
    with sizeBytes 0 and sizeFormatted "0B". -/
def resultFor (env : FetchEnv) (url : String) : UrlFetchResult :=
  match env.outcome url with
  | .ok content latency =>
    { url := url, content := content
      metrics := { url := url, latency := latency,
                   sizeBytes := content.utf8ByteSize,
                   sizeFormatted := formatSize content.utf8ByteSize } }
  | .httpError status statusText latency =>
    { url := url
      content := "Error fetching " ++ (url ++ (": " ++ (toString status ++ (" " ++ statusText))))
      metrics := { url := url, latency := latency, sizeBytes := 0, sizeFormatted := "0B" } }
  | .threw msg latency =>
    { url := url
      content := "Error fetching " ++ (url ++ (": " ++ msg))
      metrics := { url := url, latency := latency, sizeBytes := 0, sizeFormatted := "0B" } }

/-- The string each fetch promise returns, an element of individualContent:
    a markdown header plus body on success, the error string on failure. -/
def promiseReturn (env : FetchEnv) (url : String) : String :=
  match env.outcome url with
  | .ok content _ => "# Content from " ++ (url ++ ("\n\n" ++ content))
  | .httpError status statusText _ =>
      "Error fetching " ++ (url ++ (": " ++ (toString status ++ (" " ++ statusText))))
  | .threw msg _ => "Error fetching " ++ (url ++ (": " ++ msg))

/-- Return value of fetchUrls. -/
structure FetchBatchResult where
  combinedContent : String
  results : List UrlFetchResult
  deriving DecidableEq

/-- The fetchUrls executor: one concurrent fetch per URL. combinedContent
    joins the per-promise strings in input order (Promise.all preserves it);
    the results array is filled by results.push in completion order, given by
    the oracle's order for the batch (indices outside the batch are
    impossible at runtime and are dropped here). Total by construction: no
    exception propagates out. -/
def fetchUrls (env : FetchEnv) (urls : List String) : FetchBatchResult :=
  { combinedContent := String.intercalate "\n\n---\n\n" (urls.map (promiseReturn env))
    results := (env.order urls).filterMap fun i => (urls.get? i).map (resultFor env) }

/-- Tool status values carried by tool_use events. -/
inductive ToolStatus where
  | processing
  | executing
  | completed
  | error
  deriving DecidableEq

/-- An entry of the urlMetrics array built in the arguments-done handler:
    url, startTime 0, endTime 0, sizeBytes. -/
structure SubUrlMetric where
  url : String
  startTime : Nat
  endTime : Nat
  sizeBytes : Nat
  deriving DecidableEq

/-- Semantic stream events yielded to the caller (ResponseStreamEvent).
    Metadata-only fields such as responseId and model are elided. -/
inductive REvent where
  | created
  | inProgress
  | thinking (content : Option String) (delta : Option String)
  | output (delta : String)
  | toolUse (toolName : String) (toolStatus : ToolStatus)
      (content : Option String) (delta : Option String) (urlMetrics : List SubUrlMetric)
  | toolContinuation (toolName : String) (toolResult : String)
      (requestedUrls : List String) (urlMetrics : List SubUrlMetric)
      (urlFetchResults : List UrlFetchResult) (usage : Option Usage)
  | error (content : String)
  | complete (usage : Option Usage)
  deriving DecidableEq

/-- Parse result of the tool-call arguments: JSON.parse throwing (with the
    exception message), or a parsed object whose urls field is either absent
    or falsy (parsed none) or an array of strings (parsed (some urls)). -/
inductive ToolArgs where
  | malformed (msg : String)
  | parsed (urls : Option (List String))
  deriving DecidableEq

/-- The raw arguments payload of an arguments-done frame: absent or empty
    (so that the code parses the empty object instead), or present with the
    given parse result. -/
inductive RawArgs where
  | absent
  | present (t : ToolArgs)
  deriving DecidableEq

/-- Evaluation of JSON.parse(event.arguments || two braces): an absent or
    empty payload parses to the empty object, which has no urls field. -/
def parseRaw : RawArgs → ToolArgs
  | .absent => .parsed none
  | .present t => t

/-- Upstream protocol frames, one constructor per event.type the switch in
    streamResponse names; unknown is any other frame kind. -/
inductive Frame where
  | created
  | inProgress
  | outputItemAdded (isReasoning : Bool)
  | reasoningSummaryPartAdded
  | reasoningSummaryTextDelta (delta : String)
  | reasoningSummaryTextDone
  | outputTextDelta (delta : String)
  | functionCallArgumentsDelta (delta : String)
  | functionCallArgumentsDone (args : RawArgs)
  | completed (usage : Option UsageRaw)
  | unknown
  deriving DecidableEq

/-- One observable step of the orchestrator. Traces record yielded events,
    tool executions (a fetchExec covers the whole awaited fetchUrls call,
    start to resolution) and continuation-stream opens, in temporal order. -/
inductive Action where
  | emit (e : REvent)
  | fetchExec (urls : List String)
  | openContinuation
  deriving DecidableEq

/-- An entry of the toolCallResults array. -/
structure ToolCallRecord where
  toolName : String
  args : ToolArgs
  result : String
  results : List UrlFetchResult
  deriving DecidableEq

/-- The mutable locals of one streamResponse call: needsContinuation,
    toolCallResults, requestedUrls, responseUsage and metrics.urlFetches. -/
structure SubState where
  needsContinuation : Bool
  toolCallResults : List ToolCallRecord
  requestedUrls : List String
  responseUsage : Option UsageRaw
  urlFetches : List SubUrlMetric
  deriving DecidableEq

/-- Initial values of the streamResponse locals. -/
def initSubState : SubState :=
  { needsContinuation := false, toolCallResults := [], requestedUrls := [],
    responseUsage := none, urlFetches := [] }

/-- The urlsPreview string: the comma-joined urls cut to 100 characters, with
    an ellipsis when the join was longer. -/
def urlsPreview (urls : List String) : String :=
  let joined := String.intercalate ", " urls
  joined.take 100 ++ (if joined.length > 100 then "..." else "")

/-- One iteration of the streamResponse event loop: the switch over
    event.type. The arguments-done case yields the executing announcement,
    then either catches the parse failure as a tool_use error event, or
    yields the batch preview, awaits fetchUrls, appends to toolCallResults
    and metrics.urlFetches, sets needsContinuation and yields the completed
    event. The completion frame stores usage and yields complete only when
    needsContinuation is still unset. -/
def processFrame (env : FetchEnv) (model : String) (s : SubState) :
    Frame → SubState × List Action
  | .created => (s, [.emit .created])
  | .inProgress => (s, [.emit .inProgress])
  | .outputItemAdded isReasoning =>
      if isReasoning then (s, [.emit (.thinking (some "") none)]) else (s, [])
  | .reasoningSummaryPartAdded => (s, [])
  | .reasoningSummaryTextDelta d => (s, [.emit (.thinking none (some d))])
  | .reasoningSummaryTextDone => (s, [])
  | .outputTextDelta d => (s, [.emit (.output d)])
  | .functionCallArgumentsDelta d =>
      (s, [.emit (.toolUse "fetch_urls" .processing none (some d) [])])
  | .functionCallArgumentsDone raw =>
      let announce : Action :=
        .emit (.toolUse "fetch_urls" .executing (some "Fetching URLs...") none [])
      match parseRaw raw with
      | .malformed msg =>
          (s, [announce,
               .emit (.toolUse "fetch_urls" .error (some ("Error: " ++ msg)) none [])])
      | .parsed urlsOpt =>
          let urls := urlsOpt.getD []
          let preview := urlsPreview urls
          let fetchResult := fetchUrls env urls
          let urlMetrics := fetchResult.results.map fun r =>
            ({ url := r.url, startTime := 0, endTime := 0,
               sizeBytes := r.metrics.sizeBytes } : SubUrlMetric)
          ({ s with
              requestedUrls := urls
              urlFetches := s.urlFetches ++ urlMetrics
              toolCallResults := s.toolCallResults ++
                [{ toolName := "fetch_urls", args := ToolArgs.parsed urlsOpt,
                   result := fetchResult.combinedContent,
                   results := fetchResult.results }]
              needsContinuation := true },
           [announce,
            .emit (.toolUse "fetch_urls" .executing
              (some ("Fetching " ++ (toString urls.length ++ (" URL(s): " ++ preview))))
              none []),
            .fetchExec urls,
            .emit (.toolUse "fetch_urls" .completed
              (some ("Fetched " ++ (toString urls.length ++ (" URL(s) - " ++
                (toString fetchResult.combinedContent.length ++ (" chars: " ++ preview))))))
              none urlMetrics)])
  | .completed usage =>
      let newUsage := match usage with
        | some u => some u
        | none => s.responseUsage
      let s' := { s with responseUsage := newUsage }
      if s'.needsContinuation then (s', [])
      else (s', [.emit (.complete (calculateUsage model newUsage))])
  | .unknown => (s, [])

/-- One sub-turn's upstream interaction: the frames the event loop processed,
    and an optional transport exception (its message) that interrupted the
    try-block after them. A thrown stream delivered no completion frame. -/
structure SubInput where
  frames : List Frame
  thrown : Option String
  deriving DecidableEq

/-- The for-await loop of streamResponse over a list of frames. -/
def runFrames (env : FetchEnv) (model : String) :
    SubState → List Frame → SubState × List Action
  | s, [] => (s, [])
  | s, f :: fs =>
      let step := processFrame env model s f
      let rest := runFrames env model step.1 fs
      (rest.1, step.2 ++ rest.2)

/-- A full streamResponse call: the event loop, then (only when the try-block
    did not throw) the continuation block which yields one tool_continuation
    from toolCallResults head when needsContinuation is set, and otherwise
    the catch yielding one error event. -/
def streamResponse (env : FetchEnv) (model : String) (inp : SubInput) :
    SubState × List Action :=
  let run := runFrames env model initSubState inp.frames
  match inp.thrown with
  | some msg => (run.1, run.2 ++ [.emit (.error msg)])
  | none =>
      match run.1.needsContinuation, run.1.toolCallResults.head? with
      | true, some tr =>
          (run.1, run.2 ++ [.emit (.toolContinuation tr.toolName tr.result
            run.1.requestedUrls run.1.urlFetches tr.results
            (calculateUsage model run.1.responseUsage))])
      | _, _ => (run.1, run.2)

/-- One iteration of the continueStreamResponse loop: its switch handles only
    the listed frame kinds; function-call frames (and every other kind) fall
    through without effect, and the completion frame always yields complete. -/
def contProcessFrame (model : String) (ru : Option UsageRaw) :
    Frame → Option UsageRaw × List Action
  | .outputItemAdded isReasoning =>
      if isReasoning then (ru, [.emit (.thinking (some "") none)]) else (ru, [])
  | .reasoningSummaryTextDelta d => (ru, [.emit (.thinking none (some d))])
  | .outputTextDelta d => (ru, [.emit (.output d)])
  | .completed usage =>
      let ru' := match usage with
        | some u => some u
        | none => ru
      (ru', [.emit (.complete (calculateUsage model ru'))])
  | _ => (ru, [])

/-- The for-await loop of continueStreamResponse. -/
def contRunFrames (model : String) :
    Option UsageRaw → List Frame → Option UsageRaw × List Action
  | ru, [] => (ru, [])
  | ru, f :: fs =>
      let step := contProcessFrame model ru f
      let rest := contRunFrames model step.1 fs
      (rest.1, step.2 ++ rest.2)

/-- A full continueStreamResponse call: the loop plus the catch yielding one
    error event when the stream threw. -/
def continueStreamResponse (model : String) (inp : SubInput) : List Action :=
  let run := contRunFrames model none inp.frames
  match inp.thrown with
  | some msg => run.2 ++ [.emit (.error msg)]
  | none => run.2

/-- Whether an event is the tool_continuation signal. -/
def REvent.isToolContinuation : REvent → Bool
  | .toolContinuation _ _ _ _ _ _ => true
  | _ => false

/-- The processEvent driver in app.tsx, applied to the first sub-turn's
    events: each event is processed in order, and on tool_continuation the
    driver opens continueStreamResponse and recursively processes that
    stream's events before any later outer event. The continuation stream
    never emits tool_continuation (see contStream_no_toolContinuation), so
    the recursion bottoms out after one level and this one-level expansion
    is exact. -/
def expandTrace (model : String) (inp₁ : SubInput) : List Action → List Action
  | [] => []
  | a :: rest =>
      match a with
      | .emit e =>
          if e.isToolContinuation then
            a :: .openContinuation ::
              (continueStreamResponse model inp₁ ++ expandTrace model inp₁ rest)
          else a :: expandTrace model inp₁ rest
      | _ => a :: expandTrace model inp₁ rest

/-- The whole logical turn: the first sub-turn driven by processEvent, with
    the continuation sub-turn inlined where its stream is opened. -/
def turnTrace (env : FetchEnv) (model : String) (inp₀ inp₁ : SubInput) :
    List Action :=
  expandTrace model inp₁ (streamResponse env model inp₀).2

/-- Whether an event terminates the outer stream: complete or error. -/
def REvent.isTerminal : REvent → Bool
  | .complete _ => true
  | .error _ => true
  | _ => false

/-- Emission of a terminal event. -/
def Action.isTerminalEmit : Action → Bool
  | .emit e => e.isTerminal
  | _ => false

/-- Emission of a complete event. -/
def Action.isCompleteEmit : Action → Bool
  | .emit (.complete _) => true
  | _ => false

/-- Emission of a tool_continuation event. -/
def Action.isToolContEmit : Action → Bool
  | .emit e => e.isToolContinuation
  | _ => false

/-- A tool execution step. -/
def Action.isFetchExec : Action → Bool
  | .fetchExec _ => true
  | _ => false

/-- The URL batches passed to fetchUrls along a trace, in execution order. -/
def fetchExecs (tr : List Action) : List (List String) :=
  tr.filterMap fun a => match a with
    | .fetchExec urls => some urls
    | _ => none

/-- Number of terminal emissions in a trace. -/
def countTerminal (tr : List Action) : Nat := tr.countP Action.isTerminalEmit

/-- Whether a frame is the upstream completion frame. -/
def Frame.isCompleted : Frame → Bool
  | .completed _ => true
  | _ => false

/-- Whether a frame is an arguments-done frame whose payload parses. -/
def Frame.isParsedArgsDone : Frame → Bool
  | .functionCallArgumentsDone raw =>
      match parseRaw raw with
      | .parsed _ => true
      | .malformed _ => false
  | _ => false

/-- Whether a frame is an arguments-done frame whose payload fails to parse. -/
def Frame.isMalformedArgsDone : Frame → Bool
  | .functionCallArgumentsDone raw =>
      match parseRaw raw with
      | .parsed _ => false
      | .malformed _ => true
  | _ => false

/-- Well-formed upstream interaction, the transport contract: a stream that
    did not throw delivered exactly one completion frame, as its last frame;
    a stream that threw never delivered one. -/
def WFInput (inp : SubInput) : Prop :=
  match inp.thrown with
  | none => ∃ body u, inp.frames = body ++ [Frame.completed u] ∧
      ∀ f ∈ body, f.isCompleted = false
  | some _ => ∀ f ∈ inp.frames, f.isCompleted = false

/-- The urls-option of each parsed arguments-done frame, in stream order. -/
def parsedArgsList (frames : List Frame) : List (Option (List String)) :=
  frames.filterMap fun f => match f with
    | .functionCallArgumentsDone raw =>
        match parseRaw raw with
        | .parsed o => some o
        | .malformed _ => none
    | _ => none

/-- The toolCallResults entry produced for one parsed arguments payload. -/
def recordFor (env : FetchEnv) (o : Option (List String)) : ToolCallRecord :=
  { toolName := "fetch_urls", args := ToolArgs.parsed o,
    result := (fetchUrls env (o.getD [])).combinedContent,
    results := (fetchUrls env (o.getD [])).results }

/-- The SessionLogger status states. -/
inductive LogState where
  | starting
  | thinking
  | toolCalling
  | fetchingUrls
  | responding
  | complete
  | error
  deriving DecidableEq

/-- SessionLogger state: interactionCount, the cumulativeMetrics counters,
    the numbers of the interactions pushed onto the summary list, whether
    currentMetrics is set, and the current status. File contents and
    wall-clock-derived fields (durations, elapsed time) are elided. -/
structure LoggerState where
  interactionCount : Nat
  totalInteractions : Nat
  completedInteractions : Nat
  totalInputTokens : Nat
  totalOutputTokens : Nat
  totalCachedTokens : Nat
  totalThinkingTokens : Nat
  totalCost : ℚ
  totalUrlFetches : Nat
  interactions : List Nat
  hasCurrentMetrics : Bool
  currentInteraction : Nat
  currentState : LogState
  deriving DecidableEq

/-- The SessionLogger state right after the constructor. -/
def initLoggerState : LoggerState :=
  { interactionCount := 0, totalInteractions := 0, completedInteractions := 0,
    totalInputTokens := 0, totalOutputTokens := 0, totalCachedTokens := 0,
    totalThinkingTokens := 0, totalCost := 0, totalUrlFetches := 0,
    interactions := [], hasCurrentMetrics := false, currentInteraction := 0,
    currentState := .starting }

/-- One call to a public SessionLogger method, with the arguments that affect
    the modelled state. Methods that only write files carry their payloads
    for completeness. -/
inductive LoggerOp where
  | startInteraction (model : String)
  | logRequest (content : String)
  | logRequestFromUrlFetches (results : List UrlFetchResult)
  | logToolCall (toolName : String)
  | logResponse (content : String) (append : Bool)
  | logReasoning (content : String) (append : Bool)
  | logUrlFetchRequest (urls : List String)
  | logUrlFetchResult (index : Nat) (url : String) (content : String) (metrics : UrlMetrics)
  | logCombinedUrlFetch (content : String)
  | updateMetrics (usage : Option Usage) (duration : Nat)
  | logInteractionStats
  | setCurrentState (st : LogState) (progress : Option String)
  | updateGlobalStats
  | logError (interactionNumber : Option Nat)
  | logFatalError
  | logUrlMetrics (metrics : List UrlMetrics)
  | createSessionLog
  deriving DecidableEq

/-- Effect of one SessionLogger method on the modelled state, mirroring the
    field updates of the source (file writes have no state effect).
    startInteraction increments interactionCount and totalInteractions,
    resets currentMetrics and points currentStatus at the new interaction.
    logError pushes a failed entry carrying interactionCount when no entry
    exists yet for the looked-up interaction number. -/
def loggerStep (s : LoggerState) : LoggerOp → LoggerState
  | .startInteraction _ =>
      { s with
          interactionCount := s.interactionCount + 1
          totalInteractions := s.totalInteractions + 1
          hasCurrentMetrics := true
          currentInteraction := s.interactionCount + 1
          currentState := .starting }
  | .logRequest _ => s
  | .logRequestFromUrlFetches _ => s
  | .logToolCall _ => s
  | .logResponse _ _ => s
  | .logReasoning _ _ => s
  | .logUrlFetchRequest _ => s
  | .logUrlFetchResult _ _ _ _ =>
      { s with totalUrlFetches := s.totalUrlFetches + 1 }
  | .logCombinedUrlFetch _ => s
  | .updateMetrics usage _ =>
      if s.hasCurrentMetrics then
        match usage with
        | some u =>
            { s with
                totalInputTokens := s.totalInputTokens + u.prompt_tokens
                totalOutputTokens := s.totalOutputTokens + u.completion_tokens
                totalCachedTokens := s.totalCachedTokens + u.cached_tokens
                totalThinkingTokens := s.totalThinkingTokens + u.thinking_tokens
                totalCost := s.totalCost + (u.cost.getD 0) }
        | none => s
      else s
  | .logInteractionStats =>
      if s.hasCurrentMetrics then
        { s with
            interactions := s.interactions ++ [s.interactionCount]
            completedInteractions := s.completedInteractions + 1
            currentState := .complete }
      else s
  | .setCurrentState st _ => { s with currentState := st }
  | .updateGlobalStats => s
  | .logError interactionNumber =>
      let num := interactionNumber.getD s.currentInteraction
      let s' := { s with currentState := LogState.error }
      if num ∈ s.interactions then s'
      else if s.hasCurrentMetrics then
        { s' with interactions := s.interactions ++ [s.interactionCount] }
      else s'
  | .logFatalError => s
  | .logUrlMetrics ms =>
      if s.hasCurrentMetrics then
        { s with totalUrlFetches := s.totalUrlFetches + ms.length }
      else s
  | .createSessionLog => s

/-- A sequence of SessionLogger calls. -/
def runLogger : LoggerState → List LoggerOp → LoggerState
  | s, [] => s
  | s, op :: ops => runLogger (loggerStep s op) ops

/-- Whether an operation is the start of a numbered turn. -/
def LoggerOp.isStart : LoggerOp → Bool
  | .startInteraction _ => true
  | _ => false

/-- The numbered turn index assigned at each startInteraction call of a
    sequence, in call order. -/
def assignedIndices : LoggerState → List LoggerOp → List Nat
  | _, [] => []
  | s, op :: ops =>
      let s' := loggerStep s op
      match op with
      | .startInteraction _ => s'.interactionCount :: assignedIndices s' ops
      | _ => assignedIndices s' ops

/-- The URL lists of the parsed arguments-done frames, in stream order: the
    batches the arguments-done handler passes to fetchUrls. -/
def parsedBatches (frames : List Frame) : List (List String) :=
  (parsedArgsList frames).map fun o => o.getD []

/-- A continuation-stream open step. -/
def Action.isOpenCont : Action → Bool
  | .openContinuation => true
  | _ => false

/-- Emission of a tool_use event with status error. -/
def Action.isToolErrorEmit : Action → Bool
  | .emit (.toolUse _ .error _ _ _) => true
  | _ => false

/-- Whether a fetch outcome is a failure (non-success status or throw). -/
def FetchOutcome.isFailure : FetchOutcome → Bool
  | .ok _ _ => false
  | .httpError _ _ _ => true
  | .threw _ _ => true

/-- Fixture oracle: every fetch succeeds with the same body, and the fetches
    of a batch complete in input order. -/
def envOk : FetchEnv :=
  { outcome := fun _ => .ok "Example Domain" 5
    order := fun urls => List.range urls.length }

/-- Fixture oracle: every fetch throws, completion in input order. -/
def envThrow : FetchEnv :=
  { outcome := fun _ => .threw "connect ECONNREFUSED" 1
    order := fun urls => List.range urls.length }

/-- Fixture oracle: every fetch succeeds but the concurrent fetches of a
    batch complete in reverse input order. -/
def envRev : FetchEnv :=
  { outcome := fun _ => .ok "X" 1
    order := fun urls => (List.range urls.length).reverse }

/-- Fixture oracle: the fetch of url a throws, every other fetch succeeds. -/
def envMixed : FetchEnv :=
  { outcome := fun url => if url = "a" then .threw "boom" 2 else .ok "OK" 1
    order := fun urls => List.range urls.length }

/-- Fixture oracle agreeing with envMixed except at url a, which succeeds. -/
def envMixedOk : FetchEnv :=
  { outcome := fun url => if url = "a" then .ok "fine" 2 else .ok "OK" 1
    order := fun urls => List.range urls.length }

/-- Fixture raw usage with one million cached input tokens. -/
def cachedUsage : UsageRaw :=
  { input_tokens := 1000000, output_tokens := 0, total_tokens := 1000000,
    cached_tokens := 1000000, reasoning_tokens := 0 }

/-- Fixture raw usage identical to cachedUsage but with zero cached tokens. -/
def uncachedUsage : UsageRaw :=
  { input_tokens := 1000000, output_tokens := 0, total_tokens := 1000000,
    cached_tokens := 0, reasoning_tokens := 0 }

/-- Fixture sub-turn with no tool call. -/
def plainInput : SubInput :=
  { frames := [.created, .inProgress, .outputTextDelta "4", .completed none]
    thrown := none }

/-- Fixture sub-turn with one parsed tool call for url a. -/
def toolInput : SubInput :=
  { frames := [.created,
               .functionCallArgumentsDone (.present (.parsed (some ["a"]))),
               .completed none]
    thrown := none }

/-- Fixture sub-turn in which two tool-call items complete their arguments. -/
def twoToolInput : SubInput :=
  { frames := [.functionCallArgumentsDone (.present (.parsed (some ["a"]))),
               .functionCallArgumentsDone (.present (.parsed (some ["b"]))),
               .completed none]
    thrown := none }

/-- Fixture continuation sub-turn with plain output only. -/
def contPlainInput : SubInput :=
  { frames := [.outputTextDelta "done", .completed none], thrown := none }

/-- Fixture continuation sub-turn in which the model requests another tool
    call. -/
def contToolInput : SubInput :=
  { frames := [.functionCallArgumentsDone (.present (.parsed (some ["https://example.com"]))),
               .completed none]
    thrown := none }

/-- Fixture sub-turn whose only tool call has unparseable arguments. -/
def malformedInput : SubInput :=
  { frames := [.functionCallArgumentsDone (.present (.malformed "Unexpected token")),
               .completed none]
    thrown := none }

/-- Fixture sub-turn whose tool call has an absent arguments payload. -/
def emptyArgsInput : SubInput :=
  { frames := [.functionCallArgumentsDone .absent, .completed none]
    thrown := none }

/-- Emission of a tool_use event (any status). -/
def Action.isToolUseEmit : Action → Bool
  | .emit (.toolUse _ _ _ _ _) => true
  | _ => false

theorem resultFor_url (env : FetchEnv) (url : String) :
    (resultFor env url).url = url := by
  unfold resultFor
  cases env.outcome url <;> rfl

theorem resultFor_congr (env env' : FetchEnv) (url : String)
    (h : env'.outcome url = env.outcome url) :
    resultFor env' url = resultFor env url := by
  unfold resultFor
  rw [h]

theorem fetchUrls_results_map (env : FetchEnv) (urls : List String) :
    (fetchUrls env urls).results =
      ((env.order urls).filterMap fun i => urls.get? i).map (resultFor env) := by
  simp [fetchUrls, List.map_filterMap]

theorem get?_map {α β : Type} (g : α → β) (l : List α) (j : Nat) :
    (l.map g).get? j = (l.get? j).map g := by
  simp [List.get?_eq_getElem?, List.getElem?_map]

theorem filterMap_get_range {α β : Type} (g : α → β) (l : List α) :
    ((List.range l.length).filterMap fun i => (l.get? i).map g) = l.map g := by
  induction l with
  | nil => rfl
  | cons a tl ih =>
      rw [List.length_cons, List.range_succ_eq_map, List.filterMap_cons]
      simp only [List.get?_cons_zero, Option.map_some, List.filterMap_map]
      rw [show ((fun i => ((a :: tl).get? i).map g) ∘ Nat.succ)
            = fun i => (tl.get? i).map g from rfl]
      rw [ih, List.map_cons]
      rfl

theorem fetchUrls_nil (env : FetchEnv) :
    fetchUrls env [] = { combinedContent := "", results := [] } := by
  have h : ((env.order []).filterMap fun i => (([] : List String).get? i).map (resultFor env)) = [] := by
    simp
  simp [fetchUrls, h]
  rfl


/-- C7: in every fetchUrls batch, each result entry whose URL failed
    (non-success HTTP status or thrown fetch exception) carries an error
    content beginning with "Error fetching" and metrics recording sizeBytes
    0, and the entries of all other URLs are unaffected by that URL's
    outcome: under any second oracle agreeing on every other URL, every
    position holding another URL's result is unchanged. The batch as a whole
    always resolves: fetchUrls is a total function of the oracle, so no
    exception can propagate out of it. -/
theorem fetchUrls_failure_isolated (env env' : FetchEnv) (urls : List String)
    (u : String)
    (hfail : (env.outcome u).isFailure = true)
    (hord : env'.order urls = env.order urls)
    (hagree : ∀ v, v ≠ u → env'.outcome v = env.outcome v) :
    (∀ r ∈ (fetchUrls env urls).results, r.url = u →
      (∃ rest, r.content = "Error fetching " ++ rest) ∧ r.metrics.sizeBytes = 0) ∧
    (∀ (j : Nat) (r : UrlFetchResult), (fetchUrls env urls).results.get? j = some r →
      r.url ≠ u → (fetchUrls env' urls).results.get? j = some r) := by
  constructor
  · intro r hr hru
    rw [fetchUrls_results_map] at hr
    obtain ⟨v, _, rfl⟩ := List.mem_map.1 hr
    rw [resultFor_url] at hru
    subst hru
    cases ho : env.outcome v with
    | ok c lat => rw [ho] at hfail; exact absurd hfail (by simp [FetchOutcome.isFailure])
    | httpError st stt lat =>
        constructor
        · exact ⟨v ++ (": " ++ (toString st ++ (" " ++ stt))), by simp [resultFor, ho]⟩
        · simp [resultFor, ho]
    | threw m lat =>
        constructor
        · exact ⟨v ++ (": " ++ m), by simp [resultFor, ho]⟩
        · simp [resultFor, ho]
  · intro j r hj hru
    rw [fetchUrls_results_map] at hj
    rw [fetchUrls_results_map, hord]
    rw [get?_map] at hj ⊢
    obtain ⟨v, hv, hvr⟩ := Option.map_eq_some'.1 hj
    rw [hv]
    have hvu : v ≠ u := by
      intro hcontra
      apply hru
      rw [← hvr, resultFor_url, hcontra]
    have hr2 : resultFor env' v = r := by
      rw [resultFor_congr env env' v (hagree v hvu), hvr]
    simp [hr2]

/-- Witness for fetchUrls_failure_isolated: with the fetch of url a throwing
    and b succeeding, the record for a has sizeBytes 0 and the record for b
    (position 1) is unchanged when a's outcome is replaced by a success. -/
theorem fetchUrls_failure_isolated_witness :
    (resultFor envMixed "a").metrics.sizeBytes = 0 ∧
    (fetchUrls envMixedOk ["a", "b"]).results.get? 1 = some (resultFor envMixed "b") := by
  have h := fetchUrls_failure_isolated envMixed envMixedOk ["a", "b"] "a"
    (by decide) rfl (by intro v hv; simp [envMixed, envMixedOk, hv])
  exact ⟨(h.1 (resultFor envMixed "a") (by decide) (by decide)).2,
         h.2 1 (resultFor envMixed "b") (by decide) (by decide)⟩

/-- C8 counterexample: with two URLs whose concurrent fetches complete in
    reverse order, a legitimate schedule since the completion order is a
    permutation of the batch indices, the per-URL results list comes out in
    completion order b, a rather than input order a, b: the results order is
    not independent of the order in which the fetches complete. -/
theorem fetchUrls_results_not_input_order :
    (envRev.order ["a", "b"]).Perm (List.range 2) ∧
    (fetchUrls envRev ["a", "b"]).results.map UrlFetchResult.url = ["b", "a"] ∧
    (fetchUrls envRev ["a", "b"]).results.map UrlFetchResult.url ≠ ["a", "b"] := by
  refine ⟨by decide, by decide, by decide⟩

/-- C8 amended: the results list follows completion order, not input order:
    for every completion schedule that is a permutation of the batch indices
    the results are a permutation of the input-ordered per-URL results (each
    entry still matched by its url field), and they are exactly in input
    order whenever the fetches happen to complete in input order.
    combinedContent, built by Promise.all, always joins the per-URL strings
    in input order. -/
theorem fetchUrls_results_completion_order (env : FetchEnv) (urls : List String)
    (hperm : (env.order urls).Perm (List.range urls.length)) :
    (fetchUrls env urls).results.Perm (urls.map (resultFor env)) ∧
    (env.order urls = List.range urls.length →
      (fetchUrls env urls).results = urls.map (resultFor env)) := by
  constructor
  · have h := hperm.filterMap fun i => (urls.get? i).map (resultFor env)
    rw [filterMap_get_range] at h
    exact h
  · intro h
    show ((env.order urls).filterMap fun i => (urls.get? i).map (resultFor env)) = _
    rw [h, filterMap_get_range]

/-- Witness for fetchUrls_results_completion_order on the reverse-completion
    oracle and a two-URL batch. -/
theorem fetchUrls_results_completion_order_witness :
    (fetchUrls envRev ["a", "b"]).results.Perm (["a", "b"].map (resultFor envRev)) :=
  (fetchUrls_results_completion_order envRev ["a", "b"] (by decide)).1

/-- C4 counterexample: cached tokens make no difference to the computed cost.
    On gpt-5 a sub-turn with 1,000,000 input tokens all of them cached and
    one with the same totals but zero cached tokens both cost exactly 5/4
    USD, so the claimed cachedTokens*priceIn*cacheDiscountFactor contribution
    is absent for every nonzero discount factor. -/
theorem calculateUsage_cost_ignores_cached :
    (calculateUsage "gpt-5" (some cachedUsage)).map Usage.cost = some (some (5 / 4)) ∧
    (calculateUsage "gpt-5" (some uncachedUsage)).map Usage.cost = some (some (5 / 4)) := by
  have hp : modelPricing "gpt-5" = some (125 / 100 / 1000000, 10 / 1000000) := rfl
  constructor <;>
    · simp [calculateUsage, hp, cachedUsage, uncachedUsage]
      norm_num

/-- C4 amended: calculateUsage returns nothing when no raw usage was
    supplied; otherwise it returns the token counts, with cost equal to
    inputTokens*priceIn + outputTokens*priceOut when the model appears in the
    static price table (cached tokens contribute nothing to cost), and with
    cost omitted, token counts still returned, when the model is
    unrecognized. -/
theorem calculateUsage_formula (model : String) (u : UsageRaw) :
    calculateUsage model none = none ∧
    (∀ pIn pOut : ℚ, modelPricing model = some (pIn, pOut) →
      calculateUsage model (some u) = some
        { prompt_tokens := u.input_tokens, completion_tokens := u.output_tokens,
          total_tokens := u.total_tokens, cached_tokens := u.cached_tokens,
          thinking_tokens := u.reasoning_tokens,
          cost := some ((u.input_tokens : ℚ) * pIn + (u.output_tokens : ℚ) * pOut) }) ∧
    (modelPricing model = none →
      calculateUsage model (some u) = some
        { prompt_tokens := u.input_tokens, completion_tokens := u.output_tokens,
          total_tokens := u.total_tokens, cached_tokens := u.cached_tokens,
          thinking_tokens := u.reasoning_tokens, cost := none }) := by
  refine ⟨rfl, ?_, ?_⟩
  · intro pIn pOut h
    simp [calculateUsage, h]
  · intro h
    simp [calculateUsage, h]

/-- Witness for calculateUsage_formula at a priced model and at an unknown
    model. -/
theorem calculateUsage_formula_witness :
    calculateUsage "gpt-5" (some uncachedUsage) = some
      { prompt_tokens := uncachedUsage.input_tokens,
        completion_tokens := uncachedUsage.output_tokens,
        total_tokens := uncachedUsage.total_tokens,
        cached_tokens := uncachedUsage.cached_tokens,
        thinking_tokens := uncachedUsage.reasoning_tokens,
        cost := some ((uncachedUsage.input_tokens : ℚ) * (125 / 100 / 1000000) +
          (uncachedUsage.output_tokens : ℚ) * (10 / 1000000)) } ∧
    calculateUsage "claude" (some uncachedUsage) = some
      { prompt_tokens := uncachedUsage.input_tokens,
        completion_tokens := uncachedUsage.output_tokens,
        total_tokens := uncachedUsage.total_tokens,
        cached_tokens := uncachedUsage.cached_tokens,
        thinking_tokens := uncachedUsage.reasoning_tokens, cost := none } :=
  ⟨(calculateUsage_formula "gpt-5" uncachedUsage).2.1 (125 / 100 / 1000000)
      (10 / 1000000) rfl,
   (calculateUsage_formula "claude" uncachedUsage).2.2 rfl⟩

theorem loggerStep_interactionCount (s : LoggerState) (op : LoggerOp) :
    (loggerStep s op).interactionCount =
      if op.isStart then s.interactionCount + 1 else s.interactionCount := by
  cases op
  case startInteraction m => rfl
  case updateMetrics usage d =>
    simp only [loggerStep, LoggerOp.isStart, Bool.false_eq_true, if_false]
    split
    · cases usage <;> rfl
    · rfl
  case logInteractionStats =>
    simp only [loggerStep, LoggerOp.isStart, Bool.false_eq_true, if_false]
    split <;> rfl
  case logError n =>
    simp only [loggerStep, LoggerOp.isStart, Bool.false_eq_true, if_false]
    split
    · rfl
    · split <;> rfl
  case logUrlMetrics ms =>
    simp only [loggerStep, LoggerOp.isStart, Bool.false_eq_true, if_false]
    split <;> rfl
  all_goals rfl

theorem assignedIndices_eq (ops : List LoggerOp) : ∀ s : LoggerState,
    assignedIndices s ops =
      List.range' (s.interactionCount + 1) (ops.countP LoggerOp.isStart) := by
  induction ops with
  | nil => intro s; rfl
  | cons op ops ih =>
      intro s
      cases op
      case startInteraction m =>
        show (loggerStep s (.startInteraction m)).interactionCount ::
            assignedIndices (loggerStep s (.startInteraction m)) ops = _
        rw [ih, loggerStep_interactionCount, List.countP_cons]
        simp [LoggerOp.isStart, List.range'_succ]
      all_goals
        · show assignedIndices (loggerStep s _) ops = _
          rw [ih, loggerStep_interactionCount, List.countP_cons]
          simp [LoggerOp.isStart]

/-- C9: the numbered turn index of the SessionLogger. Only startInteraction
    changes interactionCount, incrementing it by exactly one; for every
    sequence of logger calls the indices assigned at the successive
    startInteraction calls are 1, 2, 3, ..., so they are strictly increasing
    and no index is ever assigned to two different turns. -/
theorem sessionLogger_turn_index_unique :
    (∀ (s : LoggerState) (op : LoggerOp), (loggerStep s op).interactionCount =
        if op.isStart then s.interactionCount + 1 else s.interactionCount) ∧
    (∀ ops : List LoggerOp, assignedIndices initLoggerState ops =
        List.range' 1 (ops.countP LoggerOp.isStart)) ∧
    (∀ ops : List LoggerOp, (assignedIndices initLoggerState ops).Nodup) := by
  refine ⟨loggerStep_interactionCount, ?_, ?_⟩
  · intro ops
    rw [assignedIndices_eq]
    rfl
  · intro ops
    rw [assignedIndices_eq]
    exact List.nodup_range' _ _ 1 Nat.one_pos

theorem contProcessFrame_no_tool (model : String) (ru : Option UsageRaw) (f : Frame) :
    fetchExecs (contProcessFrame model ru f).2 = [] ∧
    ((contProcessFrame model ru f).2).countP Action.isToolContEmit = 0 ∧
    ((contProcessFrame model ru f).2).countP Action.isToolUseEmit = 0 ∧
    ((contProcessFrame model ru f).2).countP Action.isOpenCont = 0 := by
  cases f
  case outputItemAdded b => cases b <;> exact ⟨rfl, rfl, rfl, rfl⟩
  case completed u => cases u <;> exact ⟨rfl, rfl, rfl, rfl⟩
  all_goals exact ⟨rfl, rfl, rfl, rfl⟩

theorem contRunFrames_no_tool (model : String) : ∀ (fs : List Frame) (ru : Option UsageRaw),
    fetchExecs ((contRunFrames model ru fs).2) = [] ∧
    ((contRunFrames model ru fs).2).countP Action.isToolContEmit = 0 ∧
    ((contRunFrames model ru fs).2).countP Action.isToolUseEmit = 0 ∧
    ((contRunFrames model ru fs).2).countP Action.isOpenCont = 0 := by
  intro fs
  induction fs with
  | nil => intro ru; exact ⟨rfl, rfl, rfl, rfl⟩
  | cons f fs ih =>
      intro ru
      have h1 := contProcessFrame_no_tool model ru f
      have h2 := ih (contProcessFrame model ru f).1
      simp only [contRunFrames, fetchExecs, List.filterMap_append, List.countP_append] at h1 h2 ⊢
      exact ⟨by rw [h1.1, h2.1]; rfl, by rw [h1.2.1, h2.2.1],
             by rw [h1.2.2.1, h2.2.2.1], by rw [h1.2.2.2, h2.2.2.2]⟩

theorem contStream_no_tool (model : String) (inp : SubInput) :
    fetchExecs (continueStreamResponse model inp) = [] ∧
    (continueStreamResponse model inp).countP Action.isToolContEmit = 0 ∧
    (continueStreamResponse model inp).countP Action.isToolUseEmit = 0 ∧
    (continueStreamResponse model inp).countP Action.isOpenCont = 0 := by
  have h := contRunFrames_no_tool model inp.frames none
  unfold continueStreamResponse
  cases inp.thrown with
  | none => exact h
  | some msg =>
      simp only [fetchExecs, List.filterMap_append, List.countP_append] at h ⊢
      exact ⟨by rw [h.1]; rfl, by rw [h.2.1]; rfl,
             by rw [h.2.2.1]; rfl, by rw [h.2.2.2]; rfl⟩

/-- C3 counterexample: a continuation sub-turn whose model stream completes a
    tool call with a urls argument is not handled as in the first sub-turn:
    the tool-call frame is silently dropped, no tool executes, no tool_use or
    tool_continuation event is emitted, and the continuation stream just
    completes. -/
theorem continuation_tool_call_ignored :
    continueStreamResponse "gpt-5" contToolInput = [Action.emit (REvent.complete none)] ∧
    fetchExecs (continueStreamResponse "gpt-5" contToolInput) = [] :=
  ⟨rfl, rfl⟩

/-- C3 amended: the processEvent driver would recurse on a tool_continuation
    coming from a continuation stream, but continueStreamResponse never
    detects tool calls: whatever frames a continuation sub-turn contains, no
    tool is executed, no tool_use event is emitted, and no tool_continuation
    event is emitted, so no further continuation ever starts. -/
theorem continuation_never_detects_tools (model : String) (inp : SubInput) :
    fetchExecs (continueStreamResponse model inp) = [] ∧
    (continueStreamResponse model inp).countP Action.isToolUseEmit = 0 ∧
    (continueStreamResponse model inp).countP Action.isToolContEmit = 0 := by
  have h := contStream_no_tool model inp
  exact ⟨h.1, h.2.2.1, h.2.1⟩

set_option maxRecDepth 8192 in
/-- C10: when the tool-call arguments payload is absent or empty, or parses
    to an object without a urls field, streamResponse substitutes the empty
    URL list instead of erroring: fetchUrls runs over zero URLs, a tool_use
    event with status completed reporting 0 URLs is emitted,
    needsContinuation is set, and a tool_continuation event with an empty
    combined toolResult follows; no tool_use event with status error and no
    complete event is emitted by this sub-turn. -/
theorem empty_args_zero_urls (env : FetchEnv) (model : String) (raw : RawArgs)
    (u : Option UsageRaw) (h : parseRaw raw = ToolArgs.parsed none) :
    streamResponse env model
        { frames := [.functionCallArgumentsDone raw, .completed u], thrown := none } =
      ({ needsContinuation := true,
         toolCallResults := [{ toolName := "fetch_urls", args := ToolArgs.parsed none,
                               result := "", results := [] }],
         requestedUrls := [], responseUsage := u, urlFetches := [] },
       [.emit (.toolUse "fetch_urls" .executing (some "Fetching URLs...") none []),
        .emit (.toolUse "fetch_urls" .executing (some "Fetching 0 URL(s): ") none []),
        .fetchExec [],
        .emit (.toolUse "fetch_urls" .completed (some "Fetched 0 URL(s) - 0 chars: ") none []),
        .emit (.toolContinuation "fetch_urls" "" [] [] [] (calculateUsage model u))]) := by
  cases u <;>
    simp [streamResponse, runFrames, processFrame, h, fetchUrls_nil, urlsPreview,
      initSubState, calculateUsage] <;>
    exact ⟨by decide, by decide⟩

/-- Witness for empty_args_zero_urls: the absent-payload tool call of
    emptyArgsInput yields the zero-URL completed event and an empty
    tool_continuation. -/
theorem empty_args_zero_urls_witness :
    streamResponse envOk "gpt-5" emptyArgsInput =
      ({ needsContinuation := true,
         toolCallResults := [{ toolName := "fetch_urls", args := ToolArgs.parsed none,
                               result := "", results := [] }],
         requestedUrls := [], responseUsage := none, urlFetches := [] },
       [.emit (.toolUse "fetch_urls" .executing (some "Fetching URLs...") none []),
        .emit (.toolUse "fetch_urls" .executing (some "Fetching 0 URL(s): ") none []),
        .fetchExec [],
        .emit (.toolUse "fetch_urls" .completed (some "Fetched 0 URL(s) - 0 chars: ") none []),
        .emit (.toolContinuation "fetch_urls" "" [] [] [] (calculateUsage "gpt-5" none))]) :=
  empty_args_zero_urls envOk "gpt-5" RawArgs.absent none rfl

theorem processFrame_needsCont (env : FetchEnv) (model : String) (s : SubState) (f : Frame) :
    ((processFrame env model s f).1).needsContinuation =
      (s.needsContinuation || f.isParsedArgsDone) := by
  cases f
  case outputItemAdded b => cases b <;> simp [processFrame, Frame.isParsedArgsDone]
  case functionCallArgumentsDone raw =>
    cases hp : parseRaw raw <;> simp [processFrame, hp, Frame.isParsedArgsDone]
  case completed u =>
    cases u <;> cases hn : s.needsContinuation <;>
      simp [processFrame, hn, Frame.isParsedArgsDone]
  all_goals simp [processFrame, Frame.isParsedArgsDone]

theorem processFrame_toolCallResults (env : FetchEnv) (model : String) (s : SubState) (f : Frame) :
    ((processFrame env model s f).1).toolCallResults =
      s.toolCallResults ++ (parsedArgsList [f]).map (recordFor env) := by
  cases f
  case outputItemAdded b => cases b <;> simp [processFrame, parsedArgsList]
  case functionCallArgumentsDone raw =>
    cases hp : parseRaw raw <;>
      simp [processFrame, hp, parsedArgsList, recordFor]
  case completed u =>
    cases u <;> cases hn : s.needsContinuation <;>
      simp [processFrame, hn, parsedArgsList]
  all_goals simp [processFrame, parsedArgsList]

theorem processFrame_count_toolCont (env : FetchEnv) (model : String) (s : SubState) (f : Frame) :
    ((processFrame env model s f).2).countP Action.isToolContEmit = 0 := by
  cases f
  case outputItemAdded b => cases b <;> rfl
  case functionCallArgumentsDone raw =>
    cases hp : parseRaw raw <;>
      simp [processFrame, hp, Action.isToolContEmit, REvent.isToolContinuation]
  case completed u =>
    cases u <;> cases hn : s.needsContinuation <;>
      simp [processFrame, hn, Action.isToolContEmit, REvent.isToolContinuation]
  all_goals rfl

theorem processFrame_count_openCont (env : FetchEnv) (model : String) (s : SubState) (f : Frame) :
    ((processFrame env model s f).2).countP Action.isOpenCont = 0 := by
  cases f
  case outputItemAdded b => cases b <;> rfl
  case functionCallArgumentsDone raw =>
    cases hp : parseRaw raw <;> simp [processFrame, hp, Action.isOpenCont]
  case completed u =>
    cases u <;> cases hn : s.needsContinuation <;>
      simp [processFrame, hn, Action.isOpenCont]
  all_goals rfl

theorem processFrame_count_terminal (env : FetchEnv) (model : String) (s : SubState)
    (f : Frame) (h : f.isCompleted = false) :
    ((processFrame env model s f).2).countP Action.isTerminalEmit = 0 := by
  cases f
  case outputItemAdded b => cases b <;> rfl
  case functionCallArgumentsDone raw =>
    cases hp : parseRaw raw <;>
      simp [processFrame, hp, Action.isTerminalEmit, REvent.isTerminal]
  case completed u => exact absurd h (by simp [Frame.isCompleted])
  all_goals rfl

theorem processFrame_count_complete (env : FetchEnv) (model : String) (s : SubState)
    (f : Frame) (h : f.isCompleted = false) :
    ((processFrame env model s f).2).countP Action.isCompleteEmit = 0 := by
  cases f
  case outputItemAdded b => cases b <;> rfl
  case functionCallArgumentsDone raw =>
    cases hp : parseRaw raw <;> simp [processFrame, hp, Action.isCompleteEmit]
  case completed u => exact absurd h (by simp [Frame.isCompleted])
  all_goals rfl

theorem processFrame_count_toolError (env : FetchEnv) (model : String) (s : SubState) (f : Frame) :
    ((processFrame env model s f).2).countP Action.isToolErrorEmit =
      if f.isMalformedArgsDone then 1 else 0 := by
  cases f
  case outputItemAdded b => cases b <;> rfl
  case functionCallArgumentsDone raw =>
    cases hp : parseRaw raw <;>
      simp [processFrame, hp, Frame.isMalformedArgsDone, Action.isToolErrorEmit,
        List.countP_cons]
  case completed u =>
    cases u <;> cases hn : s.needsContinuation <;>
      simp [processFrame, hn, Frame.isMalformedArgsDone, Action.isToolErrorEmit]
  all_goals rfl

theorem processFrame_fetchExecs (env : FetchEnv) (model : String) (s : SubState) (f : Frame) :
    fetchExecs (processFrame env model s f).2 = parsedBatches [f] := by
  cases f
  case outputItemAdded b => cases b <;> rfl
  case functionCallArgumentsDone raw =>
    cases hp : parseRaw raw <;>
      simp [processFrame, hp, fetchExecs, parsedBatches, parsedArgsList]
  case completed u =>
    cases u <;> cases hn : s.needsContinuation <;>
      simp [processFrame, hn, fetchExecs, parsedBatches, parsedArgsList]
  all_goals rfl

theorem parsedArgsList_cons (f : Frame) (fs : List Frame) :
    parsedArgsList (f :: fs) = parsedArgsList [f] ++ parsedArgsList fs := by
  cases f
  case functionCallArgumentsDone raw =>
    cases hp : parseRaw raw <;> simp [parsedArgsList, List.filterMap_cons, hp]
  all_goals simp [parsedArgsList, List.filterMap_cons]

theorem parsedBatches_cons (f : Frame) (fs : List Frame) :
    parsedBatches (f :: fs) = parsedBatches [f] ++ parsedBatches fs := by
  simp [parsedBatches, parsedArgsList_cons f fs]

theorem parsedArgsList_nil_of_none : ∀ fs : List Frame,
    (∀ f ∈ fs, f.isParsedArgsDone = false) → parsedArgsList fs = [] := by
  intro fs
  induction fs with
  | nil => intro _; rfl
  | cons f fs ih =>
      intro h
      rw [parsedArgsList_cons]
      have hf := h f (by simp)
      rw [ih (fun g hg => h g (by simp [hg]))]
      cases f
      case functionCallArgumentsDone raw =>
        cases hp : parseRaw raw
        · simp [parsedArgsList, List.filterMap_cons, hp]
        · simp [Frame.isParsedArgsDone, hp] at hf
      all_goals simp [parsedArgsList]

theorem parsedArgsList_ne_nil_of_any : ∀ fs : List Frame,
    fs.any Frame.isParsedArgsDone = true → parsedArgsList fs ≠ [] := by
  intro fs
  induction fs with
  | nil => intro h; simp at h
  | cons f fs ih =>
      intro h
      rw [parsedArgsList_cons]
      rw [List.any_cons] at h
      cases hf : Frame.isParsedArgsDone f
      · rw [hf] at h
        simp only [Bool.false_or] at h
        intro hc
        exact ih h (List.append_eq_nil.1 hc).2
      · cases f <;> simp [Frame.isParsedArgsDone] at hf
        rename_i raw
        cases hp : parseRaw raw
        · rw [hp] at hf
          simp at hf
        · simp [parsedArgsList, List.filterMap_cons, hp]

theorem runFrames_append (env : FetchEnv) (model : String) (l₁ l₂ : List Frame) :
    ∀ s : SubState, runFrames env model s (l₁ ++ l₂) =
      ((runFrames env model (runFrames env model s l₁).1 l₂).1,
       (runFrames env model s l₁).2 ++ (runFrames env model (runFrames env model s l₁).1 l₂).2) := by
  induction l₁ with
  | nil => intro s; simp [runFrames]
  | cons f fs ih => intro s; simp [runFrames, ih, List.append_assoc]

theorem runFrames_needsCont (env : FetchEnv) (model : String) : ∀ (fs : List Frame) (s : SubState),
    ((runFrames env model s fs).1).needsContinuation =
      (s.needsContinuation || fs.any Frame.isParsedArgsDone) := by
  intro fs
  induction fs with
  | nil => intro s; simp [runFrames]
  | cons f fs ih =>
      intro s
      simp only [runFrames]
      rw [ih, processFrame_needsCont, List.any_cons, Bool.or_assoc]

theorem runFrames_toolCallResults (env : FetchEnv) (model : String) :
    ∀ (fs : List Frame) (s : SubState),
    ((runFrames env model s fs).1).toolCallResults =
      s.toolCallResults ++ (parsedArgsList fs).map (recordFor env) := by
  intro fs
  induction fs with
  | nil => intro s; simp [runFrames, parsedArgsList]
  | cons f fs ih =>
      intro s
      simp only [runFrames]
      rw [ih, processFrame_toolCallResults, parsedArgsList_cons f fs, List.map_append,
        List.append_assoc]

theorem runFrames_count_toolCont (env : FetchEnv) (model : String) :
    ∀ (fs : List Frame) (s : SubState),
    ((runFrames env model s fs).2).countP Action.isToolContEmit = 0 := by
  intro fs
  induction fs with
  | nil => intro s; rfl
  | cons f fs ih =>
      intro s
      simp only [runFrames, List.countP_append]
      rw [processFrame_count_toolCont, ih]

theorem runFrames_count_openCont (env : FetchEnv) (model : String) :
    ∀ (fs : List Frame) (s : SubState),
    ((runFrames env model s fs).2).countP Action.isOpenCont = 0 := by
  intro fs
  induction fs with
  | nil => intro s; rfl
  | cons f fs ih =>
      intro s
      simp only [runFrames, List.countP_append]
      rw [processFrame_count_openCont, ih]

theorem runFrames_count_terminal (env : FetchEnv) (model : String) :
    ∀ (fs : List Frame) (s : SubState), (∀ f ∈ fs, f.isCompleted = false) →
    ((runFrames env model s fs).2).countP Action.isTerminalEmit = 0 := by
  intro fs
  induction fs with
  | nil => intro s _; rfl
  | cons f fs ih =>
      intro s h
      simp only [runFrames, List.countP_append]
      rw [processFrame_count_terminal env model s f (h f (by simp)),
        ih _ (fun g hg => h g (by simp [hg]))]

theorem runFrames_count_complete (env : FetchEnv) (model : String) :
    ∀ (fs : List Frame) (s : SubState), (∀ f ∈ fs, f.isCompleted = false) →
    ((runFrames env model s fs).2).countP Action.isCompleteEmit = 0 := by
  intro fs
  induction fs with
  | nil => intro s _; rfl
  | cons f fs ih =>
      intro s h
      simp only [runFrames, List.countP_append]
      rw [processFrame_count_complete env model s f (h f (by simp)),
        ih _ (fun g hg => h g (by simp [hg]))]

theorem runFrames_count_toolError (env : FetchEnv) (model : String) :
    ∀ (fs : List Frame) (s : SubState),
    ((runFrames env model s fs).2).countP Action.isToolErrorEmit =
      fs.countP Frame.isMalformedArgsDone := by
  intro fs
  induction fs with
  | nil => intro s; rfl
  | cons f fs ih =>
      intro s
      simp only [runFrames, List.countP_append, List.countP_cons]
      rw [processFrame_count_toolError, ih]
      omega

theorem runFrames_fetchExecs (env : FetchEnv) (model : String) :
    ∀ (fs : List Frame) (s : SubState),
    fetchExecs ((runFrames env model s fs).2) = parsedBatches fs := by
  intro fs
  induction fs with
  | nil => intro s; rfl
  | cons f fs ih =>
      intro s
      simp only [runFrames, fetchExecs, List.filterMap_append]
      rw [show List.filterMap _ (processFrame env model s f).2
            = fetchExecs (processFrame env model s f).2 from rfl,
        show List.filterMap _ (runFrames env model (processFrame env model s f).1 fs).2
            = fetchExecs (runFrames env model (processFrame env model s f).1 fs).2 from rfl,
        processFrame_fetchExecs, ih, parsedBatches_cons f fs]

theorem contProcessFrame_count_terminal (model : String) (ru : Option UsageRaw)
    (f : Frame) (h : f.isCompleted = false) :
    ((contProcessFrame model ru f).2).countP Action.isTerminalEmit = 0 := by
  cases f
  case outputItemAdded b => cases b <;> rfl
  case completed u => exact absurd h (by simp [Frame.isCompleted])
  all_goals rfl

theorem contProcessFrame_completed_terminal (model : String) (ru : Option UsageRaw)
    (u : Option UsageRaw) :
    ((contProcessFrame model ru (.completed u)).2).countP Action.isTerminalEmit = 1 := by
  cases u <;> rfl

theorem contRunFrames_append (model : String) (l₁ l₂ : List Frame) :
    ∀ ru : Option UsageRaw, contRunFrames model ru (l₁ ++ l₂) =
      ((contRunFrames model (contRunFrames model ru l₁).1 l₂).1,
       (contRunFrames model ru l₁).2 ++ (contRunFrames model (contRunFrames model ru l₁).1 l₂).2) := by
  induction l₁ with
  | nil => intro ru; simp [contRunFrames]
  | cons f fs ih => intro ru; simp [contRunFrames, ih, List.append_assoc]

theorem contRunFrames_count_terminal (model : String) :
    ∀ (fs : List Frame) (ru : Option UsageRaw), (∀ f ∈ fs, f.isCompleted = false) →
    ((contRunFrames model ru fs).2).countP Action.isTerminalEmit = 0 := by
  intro fs
  induction fs with
  | nil => intro ru _; rfl
  | cons f fs ih =>
      intro ru h
      simp only [contRunFrames, List.countP_append]
      rw [contProcessFrame_count_terminal model ru f (h f (by simp)),
        ih _ (fun g hg => h g (by simp [hg]))]

theorem contStream_terminal (model : String) (inp : SubInput) (h : WFInput inp) :
    countTerminal (continueStreamResponse model inp) = 1 := by
  unfold countTerminal continueStreamResponse
  cases ht : inp.thrown with
  | some msg =>
      have hb : ∀ f ∈ inp.frames, f.isCompleted = false := by
        simpa [WFInput, ht] using h
      rw [List.countP_append, contRunFrames_count_terminal model inp.frames none hb]
      rfl
  | none =>
      obtain ⟨body, u, hfr, hbody⟩ : ∃ body u, inp.frames = body ++ [Frame.completed u] ∧
          ∀ f ∈ body, f.isCompleted = false := by
        simpa [WFInput, ht] using h
      rw [hfr, contRunFrames_append]
      rw [List.countP_append, contRunFrames_count_terminal model body none hbody]
      simp only [contRunFrames, List.countP_append]
      rw [contProcessFrame_completed_terminal]
      rfl

theorem expandTrace_countP (model : String) (inp : SubInput) (p : Action → Bool)
    (hOpen : p Action.openContinuation = false)
    (hTc : ∀ e : REvent, e.isToolContinuation = true → p (Action.emit e) = false) :
    ∀ l : List Action, (expandTrace model inp l).countP p =
      l.countP p + l.countP Action.isToolContEmit * (continueStreamResponse model inp).countP p := by
  intro l
  induction l with
  | nil => simp [expandTrace]
  | cons a rest ih =>
      cases a with
      | emit e =>
          cases he : e.isToolContinuation
          · simp only [expandTrace, he, Bool.false_eq_true, if_false, List.countP_cons, ih,
              Action.isToolContEmit, he]
            ring
          · have hpe := hTc e he
            simp only [expandTrace, he, if_true, List.countP_cons, List.countP_append, ih,
              Action.isToolContEmit, hpe, hOpen]
            simp only [Bool.false_eq_true, if_false]
            ring
      | fetchExec urls =>
          simp only [expandTrace, List.countP_cons, ih, Action.isToolContEmit,
            Bool.false_eq_true, if_false]
          ring
      | openContinuation =>
          simp only [expandTrace, List.countP_cons, ih, Action.isToolContEmit,
            Bool.false_eq_true, if_false]
          ring

theorem expandTrace_count_toolCont (model : String) (inp : SubInput) :
    ∀ l : List Action, (expandTrace model inp l).countP Action.isToolContEmit =
      l.countP Action.isToolContEmit := by
  intro l
  induction l with
  | nil => rfl
  | cons a rest ih =>
      cases a with
      | emit e =>
          cases he : e.isToolContinuation
          · simp only [expandTrace, he, Bool.false_eq_true, if_false, List.countP_cons, ih,
              Action.isToolContEmit]
          · simp only [expandTrace, he, if_true, List.countP_cons, List.countP_append, ih,
              Action.isToolContEmit, (contStream_no_tool model inp).2.1]
            simp [Action.isOpenCont]
      | fetchExec urls =>
          simp only [expandTrace, List.countP_cons, ih, Action.isToolContEmit,
            Bool.false_eq_true, if_false]
      | openContinuation =>
          simp only [expandTrace, List.countP_cons, ih, Action.isToolContEmit,
            Bool.false_eq_true, if_false]

theorem expandTrace_append_left (model : String) (inp : SubInput) :
    ∀ l₁ l₂ : List Action, l₁.countP Action.isToolContEmit = 0 →
      expandTrace model inp (l₁ ++ l₂) = l₁ ++ expandTrace model inp l₂ := by
  intro l₁
  induction l₁ with
  | nil => intro l₂ _; rfl
  | cons a l₁ ih =>
      intro l₂ h
      rw [List.countP_cons] at h
      cases hb : Action.isToolContEmit a
      · rw [hb] at h
        simp only [Bool.false_eq_true, if_false, Nat.add_zero] at h
        cases a with
        | emit e =>
            have he : e.isToolContinuation = false := by
              simpa [Action.isToolContEmit] using hb
            simp [expandTrace, he, ih l₂ h]
        | fetchExec urls => simp [expandTrace, ih l₂ h]
        | openContinuation => simp [expandTrace, ih l₂ h]
      · rw [hb] at h
        simp at h

theorem takeWhile_append_of_forall {α : Type} (p : α → Bool) :
    ∀ (l₁ : List α) (x : α) (l₂ : List α), (∀ a ∈ l₁, p a = true) → p x = false →
      (l₁ ++ x :: l₂).takeWhile p = l₁ := by
  intro l₁
  induction l₁ with
  | nil => intro x l₂ _ hx; simp [List.takeWhile_cons, hx]
  | cons a l₁ ih =>
      intro x l₂ h hx
      have ha := h a (by simp)
      simp [List.takeWhile_cons, ha, ih x l₂ (fun b hb => h b (by simp [hb])) hx]

theorem any_fetchExec_of_ne_nil (l : List Action) (h : fetchExecs l ≠ []) :
    l.any Action.isFetchExec = true := by
  obtain ⟨b, hb⟩ := List.exists_mem_of_ne_nil _ h
  simp only [fetchExecs] at hb
  obtain ⟨a, ha, hab⟩ := List.mem_filterMap.1 hb
  refine List.any_eq_true.2 ⟨a, ha, ?_⟩
  cases a <;> simp_all [Action.isFetchExec]

theorem processFrame_completed_actions (env : FetchEnv) (model : String) (s : SubState)
    (u : Option UsageRaw) :
    (processFrame env model s (.completed u)).2 =
      if s.needsContinuation then []
      else [.emit (.complete (calculateUsage model
        (match u with | some x => some x | none => s.responseUsage)))] := by
  cases u <;> cases hn : s.needsContinuation <;> simp [processFrame, hn]

theorem streamResponse_thrown (env : FetchEnv) (model : String) (inp : SubInput)
    (msg : String) (ht : inp.thrown = some msg) :
    streamResponse env model inp =
      ((runFrames env model initSubState inp.frames).1,
       (runFrames env model initSubState inp.frames).2 ++ [.emit (.error msg)]) := by
  simp [streamResponse, ht]

theorem streamResponse_no_tool (env : FetchEnv) (model : String) (inp : SubInput)
    (ht : inp.thrown = none)
    (hn : (runFrames env model initSubState inp.frames).1.needsContinuation = false) :
    streamResponse env model inp =
      ((runFrames env model initSubState inp.frames).1,
       (runFrames env model initSubState inp.frames).2) := by
  simp [streamResponse, ht, hn]

theorem streamResponse_with_tool (env : FetchEnv) (model : String) (inp : SubInput)
    (tr : ToolCallRecord) (ht : inp.thrown = none)
    (hn : (runFrames env model initSubState inp.frames).1.needsContinuation = true)
    (hh : (runFrames env model initSubState inp.frames).1.toolCallResults.head? = some tr) :
    streamResponse env model inp =
      ((runFrames env model initSubState inp.frames).1,
       (runFrames env model initSubState inp.frames).2 ++
         [.emit (.toolContinuation tr.toolName tr.result
           (runFrames env model initSubState inp.frames).1.requestedUrls
           (runFrames env model initSubState inp.frames).1.urlFetches tr.results
           (calculateUsage model (runFrames env model initSubState inp.frames).1.responseUsage))]) := by
  simp [streamResponse, ht, hn, hh]

theorem streamResponse_head_exists (env : FetchEnv) (model : String) (fs : List Frame)
    (hn : (runFrames env model initSubState fs).1.needsContinuation = true) :
    ∃ tr, (runFrames env model initSubState fs).1.toolCallResults.head? = some tr := by
  have hAny : fs.any Frame.isParsedArgsDone = true := by
    have hthis := runFrames_needsCont env model fs initSubState
    rw [hn] at hthis
    simpa [initSubState] using hthis.symm
  have hne := parsedArgsList_ne_nil_of_any fs hAny
  have htcr := runFrames_toolCallResults env model fs initSubState
  rw [show initSubState.toolCallResults = [] from rfl, List.nil_append] at htcr
  cases hpl : parsedArgsList fs with
  | nil => exact absurd hpl hne
  | cons o rest =>
      refine ⟨recordFor env o, ?_⟩
      rw [htcr, hpl]
      rfl

theorem streamResponse_count_openCont (env : FetchEnv) (model : String) (inp : SubInput) :
    ((streamResponse env model inp).2).countP Action.isOpenCont = 0 := by
  cases ht : inp.thrown with
  | some msg =>
      rw [streamResponse_thrown env model inp msg ht]
      simp only [List.countP_append, runFrames_count_openCont]
      rfl
  | none =>
      cases hn : (runFrames env model initSubState inp.frames).1.needsContinuation with
      | false =>
          rw [streamResponse_no_tool env model inp ht hn]
          exact runFrames_count_openCont env model inp.frames initSubState
      | true =>
          obtain ⟨tr, hh⟩ := streamResponse_head_exists env model inp.frames hn
          rw [streamResponse_with_tool env model inp tr ht hn hh]
          simp only [List.countP_append, runFrames_count_openCont]
          rfl

theorem runFrames_last_completed (env : FetchEnv) (model : String)
    (body : List Frame) (u : Option UsageRaw) :
    (runFrames env model initSubState (body ++ [Frame.completed u])).1.needsContinuation =
      (runFrames env model initSubState body).1.needsContinuation ∧
    (runFrames env model initSubState (body ++ [Frame.completed u])).2 =
      (runFrames env model initSubState body).2 ++
        (if (runFrames env model initSubState body).1.needsContinuation then []
         else [.emit (.complete (calculateUsage model
           (match u with
            | some x => some x
            | none => (runFrames env model initSubState body).1.responseUsage)))]) := by
  rw [runFrames_append]
  constructor
  · simp [runFrames, processFrame_needsCont, Frame.isParsedArgsDone]
  · simp only [runFrames, List.append_nil]
    rw [processFrame_completed_actions]

theorem streamResponse_wf_summary (env : FetchEnv) (model : String) (inp : SubInput)
    (h : WFInput inp) :
    (countTerminal (streamResponse env model inp).2 = 1 ∧
      ((streamResponse env model inp).2).countP Action.isToolContEmit = 0 ∧
      ((streamResponse env model inp).2).countP Action.isCompleteEmit = 0)
    ∨ (countTerminal (streamResponse env model inp).2 = 1 ∧
      ((streamResponse env model inp).2).countP Action.isToolContEmit = 0 ∧
      ((streamResponse env model inp).1).needsContinuation = false)
    ∨ (countTerminal (streamResponse env model inp).2 = 0 ∧
      ((streamResponse env model inp).2).countP Action.isToolContEmit = 1 ∧
      ((streamResponse env model inp).2).countP Action.isCompleteEmit = 0) := by
  cases ht : inp.thrown with
  | some msg =>
      left
      have hb : ∀ f ∈ inp.frames, f.isCompleted = false := by
        simpa [WFInput, ht] using h
      rw [streamResponse_thrown env model inp msg ht]
      refine ⟨?_, ?_, ?_⟩
      · unfold countTerminal
        rw [List.countP_append, runFrames_count_terminal env model inp.frames initSubState hb]
        rfl
      · rw [List.countP_append, runFrames_count_toolCont]
        rfl
      · rw [List.countP_append,
          runFrames_count_complete env model inp.frames initSubState hb]
        rfl
  | none =>
      obtain ⟨body, u, hfr, hbody⟩ : ∃ body u, inp.frames = body ++ [Frame.completed u] ∧
          ∀ f ∈ body, f.isCompleted = false := by
        simpa [WFInput, ht] using h
      have hlast := runFrames_last_completed env model body u
      cases hnB : (runFrames env model initSubState body).1.needsContinuation with
      | false =>
          right; left
          have hn : (runFrames env model initSubState inp.frames).1.needsContinuation = false := by
            rw [hfr, hlast.1, hnB]
          rw [streamResponse_no_tool env model inp ht hn]
          refine ⟨?_, ?_, hn⟩
          · unfold countTerminal
            rw [hfr, hlast.2, hnB]
            rw [List.countP_append,
              runFrames_count_terminal env model body initSubState hbody]
            rfl
          · exact runFrames_count_toolCont env model inp.frames initSubState
      | true =>
          right; right
          have hn : (runFrames env model initSubState inp.frames).1.needsContinuation = true := by
            rw [hfr, hlast.1, hnB]
          obtain ⟨tr, hh⟩ := streamResponse_head_exists env model inp.frames hn
          rw [streamResponse_with_tool env model inp tr ht hn hh]
          refine ⟨?_, ?_, ?_⟩
          · unfold countTerminal
            rw [List.countP_append]
            rw [hfr, hlast.2, hnB]
            rw [List.countP_append,
              runFrames_count_terminal env model body initSubState hbody]
            rfl
          · rw [List.countP_append, runFrames_count_toolCont]
            rfl
          · rw [List.countP_append]
            rw [hfr, hlast.2, hnB]
            rw [List.countP_append,
              runFrames_count_complete env model body initSubState hbody]
            rfl

/-- C1: for every well-formed turn (each sub-turn's stream either ends in
    exactly one completion frame or threw), the turn trace contains exactly
    one outer terminal emission, a complete or a terminal error, after all
    continuations resolve; and when a tool call was detected in the first
    sub-turn (needsContinuation set) that sub-turn emits no complete event at
    its upstream completion frame, so the single complete can only come from
    the continuation stream's completion. -/
theorem turn_exactly_one_terminal (env : FetchEnv) (model : String)
    (inp₀ inp₁ : SubInput) (h₀ : WFInput inp₀) (h₁ : WFInput inp₁) :
    countTerminal (turnTrace env model inp₀ inp₁) = 1 ∧
    ((streamResponse env model inp₀).1.needsContinuation = true →
      ((streamResponse env model inp₀).2).countP Action.isCompleteEmit = 0) := by
  have hsum := streamResponse_wf_summary env model inp₀ h₀
  have hts : ∀ e : REvent, e.isToolContinuation = true →
      Action.isTerminalEmit (Action.emit e) = false := by
    intro e he
    cases e <;> simp_all [REvent.isToolContinuation, Action.isTerminalEmit, REvent.isTerminal]
  have hexp := expandTrace_countP model inp₁ Action.isTerminalEmit rfl hts
    (streamResponse env model inp₀).2
  constructor
  · show (expandTrace model inp₁ (streamResponse env model inp₀).2).countP
      Action.isTerminalEmit = 1
    rw [hexp]
    rcases hsum with ⟨h1, h2, _⟩ | ⟨h1, h2, _⟩ | ⟨h1, h2, _⟩
    · rw [show countTerminal (streamResponse env model inp₀).2
            = ((streamResponse env model inp₀).2).countP Action.isTerminalEmit from rfl] at h1
      rw [h1, h2]
      simp
    · rw [show countTerminal (streamResponse env model inp₀).2
            = ((streamResponse env model inp₀).2).countP Action.isTerminalEmit from rfl] at h1
      rw [h1, h2]
      simp
    · rw [show countTerminal (streamResponse env model inp₀).2
            = ((streamResponse env model inp₀).2).countP Action.isTerminalEmit from rfl] at h1
      have hc := contStream_terminal model inp₁ h₁
      rw [show countTerminal (continueStreamResponse model inp₁)
            = (continueStreamResponse model inp₁).countP Action.isTerminalEmit from rfl] at hc
      rw [h1, h2, hc]
  · intro hneed
    rcases hsum with ⟨_, _, h3⟩ | ⟨_, _, h3⟩ | ⟨_, _, h3⟩
    · exact h3
    · rw [h3] at hneed
      cases hneed
    · exact h3

/-- Witness for turn_exactly_one_terminal: a turn with one tool call and a
    plain continuation emits exactly one terminal event. -/
theorem turn_exactly_one_terminal_witness :
    countTerminal (turnTrace envOk "gpt-5" toolInput contPlainInput) = 1 :=
  (turn_exactly_one_terminal envOk "gpt-5" toolInput contPlainInput
    ⟨[.created, .functionCallArgumentsDone (.present (.parsed (some ["a"])))], none,
      rfl, by decide⟩
    ⟨[.outputTextDelta "done"], none, rfl, by decide⟩).1

set_option maxRecDepth 8192 in
/-- C2 counterexample: in a sub-turn whose stream completes the arguments of
    two tool-call items, for urls a and then b, both batches are passed to
    fetchUrls: the trace records two tool executions, not one, so the later
    completed tool-call item is executed as well. -/
theorem multiple_tool_calls_all_execute :
    fetchExecs (streamResponse envThrow "gpt-5" twoToolInput).2 = [["a"], ["b"]] ∧
    (fetchExecs (streamResponse envThrow "gpt-5" twoToolInput).2).length ≠ 1 := by
  constructor
  · decide
  · decide

/-- C2 amended: every arguments-done frame whose payload parses triggers its
    own awaited execution of fetchUrls, in stream order, so a sub-turn with k
    parsed tool-call items performs k executions; only the first execution's
    record (toolCallResults[0]) is folded into the tool_continuation event:
    its toolResult and urlFetchResults come from the first parsed batch. -/
theorem every_parsed_tool_call_executes (env : FetchEnv) (model : String) (inp : SubInput) :
    fetchExecs (streamResponse env model inp).2 = parsedBatches inp.frames ∧
    ((streamResponse env model inp).1).toolCallResults =
      (parsedArgsList inp.frames).map (recordFor env) ∧
    (∀ tn tr ru um ufr us,
      Action.emit (.toolContinuation tn tr ru um ufr us) ∈ (streamResponse env model inp).2 →
      parsedArgsList inp.frames ≠ [] ∧
      tr = (fetchUrls env (((parsedArgsList inp.frames).headI).getD [])).combinedContent ∧
      ufr = (fetchUrls env (((parsedArgsList inp.frames).headI).getD [])).results) := by
  have hrunFe := runFrames_fetchExecs env model inp.frames initSubState
  have hruntcr := runFrames_toolCallResults env model inp.frames initSubState
  rw [show initSubState.toolCallResults = [] from rfl, List.nil_append] at hruntcr
  have hmem : ∀ tn tr ru um ufr us,
      Action.emit (.toolContinuation tn tr ru um ufr us) ∈ (streamResponse env model inp).2 →
      parsedArgsList inp.frames ≠ [] ∧
      tr = (fetchUrls env (((parsedArgsList inp.frames).headI).getD [])).combinedContent ∧
      ufr = (fetchUrls env (((parsedArgsList inp.frames).headI).getD [])).results := by
    intro tn tr ru um ufr us hin
    have hnotrun : ∀ tn' tr' ru' um' ufr' us',
        Action.emit (.toolContinuation tn' tr' ru' um' ufr' us') ∉
          (runFrames env model initSubState inp.frames).2 := by
      intro tn' tr' ru' um' ufr' us' hmem'
      have hz := runFrames_count_toolCont env model inp.frames initSubState
      have := List.countP_eq_zero.1 hz _ hmem'
      simp [Action.isToolContEmit, REvent.isToolContinuation] at this
    cases ht : inp.thrown with
    | some msg =>
        rw [streamResponse_thrown env model inp msg ht] at hin
        rcases List.mem_append.1 hin with hin | hin
        · exact absurd hin (hnotrun _ _ _ _ _ _)
        · simp at hin
    | none =>
        cases hn : (runFrames env model initSubState inp.frames).1.needsContinuation with
        | false =>
            rw [streamResponse_no_tool env model inp ht hn] at hin
            exact absurd hin (hnotrun _ _ _ _ _ _)
        | true =>
            obtain ⟨trc, hh⟩ := streamResponse_head_exists env model inp.frames hn
            rw [streamResponse_with_tool env model inp trc ht hn hh] at hin
            rcases List.mem_append.1 hin with hin | hin
            · exact absurd hin (hnotrun _ _ _ _ _ _)
            · simp only [List.mem_singleton] at hin
              injection hin with hev
              injection hev with e1 e2 e3 e4 e5 e6
              rw [hruntcr] at hh
              cases hpl : parsedArgsList inp.frames with
              | nil =>
                  rw [hpl] at hh
                  simp at hh
              | cons o rest =>
                  rw [hpl] at hh
                  simp only [List.map_cons, List.head?_cons, Option.some.injEq] at hh
                  refine ⟨by simp [hpl], ?_, ?_⟩
                  · rw [e2, ← hh]
                    simp [recordFor, hpl]
                  · rw [e5, ← hh]
                    simp [recordFor, hpl]
  have hst : (streamResponse env model inp).1 =
      (runFrames env model initSubState inp.frames).1 := by
    cases ht : inp.thrown with
    | some msg => rw [streamResponse_thrown env model inp msg ht]
    | none =>
        cases hn : (runFrames env model initSubState inp.frames).1.needsContinuation with
        | false => rw [streamResponse_no_tool env model inp ht hn]
        | true =>
            obtain ⟨trc, hh⟩ := streamResponse_head_exists env model inp.frames hn
            rw [streamResponse_with_tool env model inp trc ht hn hh]
  refine ⟨?_, by rw [hst]; exact hruntcr, hmem⟩
  cases ht : inp.thrown with
  | some msg =>
      rw [streamResponse_thrown env model inp msg ht]
      simp only [fetchExecs, List.filterMap_append] at hrunFe ⊢
      rw [hrunFe]
      simp
  | none =>
      cases hn : (runFrames env model initSubState inp.frames).1.needsContinuation with
      | false =>
          rw [streamResponse_no_tool env model inp ht hn]
          exact hrunFe
      | true =>
          obtain ⟨trc, hh⟩ := streamResponse_head_exists env model inp.frames hn
          rw [streamResponse_with_tool env model inp trc ht hn hh]
          simp only [fetchExecs, List.filterMap_append] at hrunFe ⊢
          rw [hrunFe]
          simp

set_option maxRecDepth 8192 in
/-- Witness for every_parsed_tool_call_executes: both batches of twoToolInput
    execute; and the continuation clause applied at the concrete
    tool_continuation emission of toolInput. -/
theorem every_parsed_tool_call_executes_witness :
    fetchExecs (streamResponse envOk "gpt-5" twoToolInput).2 =
      parsedBatches twoToolInput.frames ∧
    parsedArgsList toolInput.frames ≠ [] :=
  ⟨(every_parsed_tool_call_executes envOk "gpt-5" twoToolInput).1,
   ((every_parsed_tool_call_executes envOk "gpt-5" toolInput).2.2 "fetch_urls"
      (fetchUrls envOk ["a"]).combinedContent ["a"]
      ((fetchUrls envOk ["a"]).results.map fun r =>
        { url := r.url, startTime := 0, endTime := 0, sizeBytes := r.metrics.sizeBytes })
      (fetchUrls envOk ["a"]).results (calculateUsage "gpt-5" none) (by decide)).1⟩

theorem expandTrace_id (model : String) (inp : SubInput) (l : List Action)
    (h : l.countP Action.isToolContEmit = 0) :
    expandTrace model inp l = l := by
  have hx := expandTrace_append_left model inp l [] h
  simpa [expandTrace] using hx

/-- C5: per turn, at most one tool_continuation event is emitted (so at most
    one per detected tool call); whenever one is emitted, the part of the
    turn trace before it already contains the finished fetchUrls execution
    (the fetchExec step covers the whole awaited call); and whenever the
    continuation stream is opened, the part of the trace before the open
    already contains that execution: continuations are strictly serialized
    after the triggering tool resolution. -/
theorem tool_continuation_after_execution (env : FetchEnv) (model : String)
    (inp₀ inp₁ : SubInput) :
    (turnTrace env model inp₀ inp₁).countP Action.isToolContEmit ≤ 1 ∧
    ((∃ a ∈ turnTrace env model inp₀ inp₁, a.isToolContEmit = true) →
      ((turnTrace env model inp₀ inp₁).takeWhile fun a => !a.isToolContEmit).any
        Action.isFetchExec = true) ∧
    (Action.openContinuation ∈ turnTrace env model inp₀ inp₁ →
      ((turnTrace env model inp₀ inp₁).takeWhile fun a => !a.isOpenCont).any
        Action.isFetchExec = true) := by
  have hzero : ∀ hA : ((streamResponse env model inp₀).2).countP Action.isToolContEmit = 0,
      ((streamResponse env model inp₀).2).countP Action.isOpenCont = 0 →
      (turnTrace env model inp₀ inp₁).countP Action.isToolContEmit ≤ 1 ∧
      ((∃ a ∈ turnTrace env model inp₀ inp₁, a.isToolContEmit = true) →
        ((turnTrace env model inp₀ inp₁).takeWhile fun a => !a.isToolContEmit).any
          Action.isFetchExec = true) ∧
      (Action.openContinuation ∈ turnTrace env model inp₀ inp₁ →
        ((turnTrace env model inp₀ inp₁).takeWhile fun a => !a.isOpenCont).any
          Action.isFetchExec = true) := by
    intro hA hO
    have hid : turnTrace env model inp₀ inp₁ = (streamResponse env model inp₀).2 :=
      expandTrace_id model inp₁ _ hA
    refine ⟨?_, ?_, ?_⟩
    · rw [hid, hA]
      exact Nat.zero_le 1
    · rintro ⟨a, ha, hat⟩
      rw [hid] at ha
      exact absurd hat (List.countP_eq_zero.1 hA a ha)
    · intro hmem
      rw [hid] at hmem
      have := List.countP_eq_zero.1 hO _ hmem
      simp [Action.isOpenCont] at this
  cases ht : inp₀.thrown with
  | some msg =>
      apply hzero
      · rw [streamResponse_thrown env model inp₀ msg ht, List.countP_append,
          runFrames_count_toolCont]
        rfl
      · exact streamResponse_count_openCont env model inp₀
  | none =>
      cases hn : (runFrames env model initSubState inp₀.frames).1.needsContinuation with
      | false =>
          apply hzero
          · rw [streamResponse_no_tool env model inp₀ ht hn]
            exact runFrames_count_toolCont env model inp₀.frames initSubState
          · exact streamResponse_count_openCont env model inp₀
      | true =>
          obtain ⟨tr, hh⟩ := streamResponse_head_exists env model inp₀.frames hn
          have hrz := runFrames_count_toolCont env model inp₀.frames initSubState
          have hroz := runFrames_count_openCont env model inp₀.frames initSubState
          have hA : (streamResponse env model inp₀).2 =
              (runFrames env model initSubState inp₀.frames).2 ++
                [Action.emit (.toolContinuation tr.toolName tr.result
                  (runFrames env model initSubState inp₀.frames).1.requestedUrls
                  (runFrames env model initSubState inp₀.frames).1.urlFetches tr.results
                  (calculateUsage model
                    (runFrames env model initSubState inp₀.frames).1.responseUsage))] := by
            rw [streamResponse_with_tool env model inp₀ tr ht hn hh]
          have htt : turnTrace env model inp₀ inp₁ =
              (runFrames env model initSubState inp₀.frames).2 ++
                (Action.emit (.toolContinuation tr.toolName tr.result
                  (runFrames env model initSubState inp₀.frames).1.requestedUrls
                  (runFrames env model initSubState inp₀.frames).1.urlFetches tr.results
                  (calculateUsage model
                    (runFrames env model initSubState inp₀.frames).1.responseUsage)) ::
                  Action.openContinuation :: continueStreamResponse model inp₁) := by
            show expandTrace model inp₁ (streamResponse env model inp₀).2 = _
            rw [hA, expandTrace_append_left model inp₁ _ _ hrz]
            simp [expandTrace, REvent.isToolContinuation]
          have hfe : ((runFrames env model initSubState inp₀.frames).2).any
              Action.isFetchExec = true := by
            apply any_fetchExec_of_ne_nil
            rw [runFrames_fetchExecs]
            have hAny : inp₀.frames.any Frame.isParsedArgsDone = true := by
              have hthis := runFrames_needsCont env model inp₀.frames initSubState
              rw [hn] at hthis
              simpa [initSubState] using hthis.symm
            have hne := parsedArgsList_ne_nil_of_any inp₀.frames hAny
            simp [parsedBatches]
            intro hc
            exact hne hc
          refine ⟨?_, ?_, ?_⟩
          · have hcnt := expandTrace_count_toolCont model inp₁ (streamResponse env model inp₀).2
            show (expandTrace model inp₁ (streamResponse env model inp₀).2).countP
              Action.isToolContEmit ≤ 1
            rw [hcnt, hA, List.countP_append, hrz]
            simp [Action.isToolContEmit, REvent.isToolContinuation]
          · intro _
            rw [htt]
            rw [takeWhile_append_of_forall _ _ _ _ ?_ ?_]
            · exact hfe
            · intro a ha
              have := List.countP_eq_zero.1 hrz a ha
              simp [this]
            · simp [Action.isToolContEmit, REvent.isToolContinuation]
          · intro _
            rw [htt]
            rw [show (runFrames env model initSubState inp₀.frames).2 ++
                  (Action.emit (.toolContinuation tr.toolName tr.result
                    (runFrames env model initSubState inp₀.frames).1.requestedUrls
                    (runFrames env model initSubState inp₀.frames).1.urlFetches tr.results
                    (calculateUsage model
                      (runFrames env model initSubState inp₀.frames).1.responseUsage)) ::
                    Action.openContinuation :: continueStreamResponse model inp₁) =
                ((runFrames env model initSubState inp₀.frames).2 ++
                  [Action.emit (.toolContinuation tr.toolName tr.result
                    (runFrames env model initSubState inp₀.frames).1.requestedUrls
                    (runFrames env model initSubState inp₀.frames).1.urlFetches tr.results
                    (calculateUsage model
                      (runFrames env model initSubState inp₀.frames).1.responseUsage))]) ++
                  Action.openContinuation :: continueStreamResponse model inp₁ by
              simp]
            rw [takeWhile_append_of_forall _ _ _ _ ?_ ?_]
            · rw [List.any_append]
              simp [hfe]
            · intro a ha
              rcases List.mem_append.1 ha with ha | ha
              · have := List.countP_eq_zero.1 hroz a ha
                simp [Action.isOpenCont] at this ⊢
                cases a <;> simp_all [Action.isOpenCont]
              · simp only [List.mem_singleton] at ha
                rw [ha]
                rfl
            · rfl

set_option maxRecDepth 8192 in
/-- Witness for tool_continuation_after_execution on a one-tool-call turn. -/
theorem tool_continuation_after_execution_witness :
    (turnTrace envOk "gpt-5" toolInput contPlainInput).countP Action.isToolContEmit ≤ 1 ∧
    ((turnTrace envOk "gpt-5" toolInput contPlainInput).takeWhile
        fun a => !a.isToolContEmit).any Action.isFetchExec = true ∧
    ((turnTrace envOk "gpt-5" toolInput contPlainInput).takeWhile
        fun a => !a.isOpenCont).any Action.isFetchExec = true := by
  have h := tool_continuation_after_execution envOk "gpt-5" toolInput contPlainInput
  exact ⟨h.1, h.2.1 (by decide), h.2.2 (by decide)⟩

/-- C6: in a sub-turn whose tool calls all have arguments that fail to parse
    (and whose stream completes normally), every malformed arguments-done
    frame yields its own tool_use event with status error, caught locally:
    the trace holds exactly as many error-status tool_use emissions as
    malformed frames, no tool executes, no tool_continuation is emitted (no
    continuation starts), and the turn still ends with exactly one complete
    event. -/
theorem malformed_args_recovered (env : FetchEnv) (model : String) (inp : SubInput)
    (body : List Frame) (u : Option UsageRaw)
    (ht : inp.thrown = none)
    (hfr : inp.frames = body ++ [Frame.completed u])
    (hbody : ∀ f ∈ body, f.isCompleted = false)
    (hnoparse : ∀ f ∈ body, f.isParsedArgsDone = false) :
    ((streamResponse env model inp).2).countP Action.isToolErrorEmit =
      body.countP Frame.isMalformedArgsDone ∧
    fetchExecs (streamResponse env model inp).2 = [] ∧
    ((streamResponse env model inp).2).countP Action.isToolContEmit = 0 ∧
    ((streamResponse env model inp).2).countP Action.isCompleteEmit = 1 := by
  have hAnyBody : body.any Frame.isParsedArgsDone = false := by
    rw [List.any_eq_false]
    intro f hf
    simp [hnoparse f hf]
  have hAnyFull : inp.frames.any Frame.isParsedArgsDone = false := by
    rw [hfr, List.any_append, hAnyBody]
    simp [Frame.isParsedArgsDone]
  have hn : (runFrames env model initSubState inp.frames).1.needsContinuation = false := by
    rw [runFrames_needsCont, hAnyFull]
    rfl
  rw [streamResponse_no_tool env model inp ht hn]
  have hlast := runFrames_last_completed env model body u
  refine ⟨?_, ?_, ?_, ?_⟩
  · rw [runFrames_count_toolError, hfr, List.countP_append]
    simp [Frame.isMalformedArgsDone]
  · rw [runFrames_fetchExecs]
    have hpl : parsedArgsList inp.frames = [] := by
      apply parsedArgsList_nil_of_none
      intro f hf
      rw [hfr] at hf
      rcases List.mem_append.1 hf with hf | hf
      · exact hnoparse f hf
      · simp only [List.mem_singleton] at hf
        rw [hf]
        rfl
    simp [parsedBatches, hpl]
  · exact runFrames_count_toolCont env model inp.frames initSubState
  · have hnB : (runFrames env model initSubState body).1.needsContinuation = false := by
      rw [runFrames_needsCont, hAnyBody]
      rfl
    rw [hfr, hlast.2, hnB]
    simp only [Bool.false_eq_true, if_false]
    rw [List.countP_append, runFrames_count_complete env model body initSubState hbody]
    rfl

set_option maxRecDepth 8192 in
/-- Witness for malformed_args_recovered at a sub-turn with one unparseable
    tool call. -/
theorem malformed_args_recovered_witness :
    ((streamResponse envOk "gpt-5" malformedInput).2).countP Action.isToolErrorEmit = 1 ∧
    fetchExecs (streamResponse envOk "gpt-5" malformedInput).2 = [] ∧
    ((streamResponse envOk "gpt-5" malformedInput).2).countP Action.isToolContEmit = 0 ∧
    ((streamResponse envOk "gpt-5" malformedInput).2).countP Action.isCompleteEmit = 1 := by
  have h := malformed_args_recovered envOk "gpt-5" malformedInput
    [.functionCallArgumentsDone (.present (.malformed "Unexpected token"))] none
    rfl rfl (by decide) (by decide)
  refine ⟨?_, h.2.1, h.2.2.1, h.2.2.2⟩
  rw [h.1]
  decide
